import Mathlib

/-!
Verification of the Agent Session Protocol Adapter of `note-context-agent`.

The definitions below are a shallow embedding of the TypeScript sources:
  - `src/packages/obsidian/src/hooks/useChat.ts`
    (`addMessage`, `updateLastMessage`, `updateMessage`)
  - `src/packages/obsidian/src/adapters/acp/acp-type-converter.ts`
    (`AcpTypeConverter.toToolCallContent`, `AcpAdapter.sessionUpdate`,
     `AcpAdapter.requestPermission`, `AcpAdapter.handlePermissionResponse`,
     `AcpAdapter.activateNextPermission`,
     `AcpAdapter.cancelPendingPermissionRequests`,
     `AcpAdapter.cancelAllOperations`, `AcpAdapter.sendMessage`,
     `AcpAdapter.getErrorInfo` and the process event handlers of
     `AcpAdapter.initialize`)
  - `src/packages/obsidian/src/shared/terminal-manager.ts`
    (`TerminalManager.appendOutput`, `waitForExit`, `killAllTerminals`
     and the child-process event handlers of `createTerminal`)

Modelling conventions:
  - JavaScript strings are modelled by Lean `String` where only equality and
    substring tests matter, and by `List Nat` (a list of Unicode scalar
    values) where UTF-8 byte counting matters (terminal output buffers).
  - `undefined` is modelled by `Option.none`.  Where a field can be both
    `null` and `undefined` and the code distinguishes them (`!== undefined`
    checks versus `||` / `??` coalescing), the type is `Option (Option _)`:
    the outer layer is presence (`undefined`), the inner layer nullability.
  - A JavaScript `Map` is an insertion-ordered association list
    (`List (String × _)`); `Map.set` updates in place or appends,
    `Map.delete` removes the entry.
  - `crypto.randomUUID()` results are passed in as explicit parameters;
    their uniqueness guarantee becomes freshness hypotheses of theorems.
  - Promise resolutions are returned as explicit values next to the updated
    state instead of being invoked as callbacks.
-/

/-! ## String helpers: JS `String.prototype.includes` and `toLowerCase` -/

/-- `needle` occurs as a contiguous sublist of `hay`
(JS `hay.includes(needle)`). -/
def listContainsSub (hay needle : List Char) : Bool :=
  match hay with
  | [] => needle.isEmpty
  | _ :: t => needle.isPrefixOf hay || listContainsSub t needle

/-- JS `hay.includes(needle)` on strings. -/
def strContains (hay needle : String) : Bool :=
  listContainsSub hay.data needle.data

/-- JS `s.toLowerCase()`, restricted to the character ranges the adapter
compares against (the ASCII literal "allow"). -/
def strToLower (s : String) : String :=
  ⟨s.data.map Char.toLower⟩

/-! ## UTF-8 encoding and decoding

`TerminalManager.appendOutput` computes `Buffer.byteLength(str, "utf8")`,
re-encodes the string with `Buffer.from(str, "utf8")`, drops a byte-suffix
with `subarray` and decodes it back with `toString("utf8")`.  Node decodes
invalid UTF-8 with the WHATWG replacement behaviour: every maximal invalid
subpart yields one U+FFFD. -/

/-- UTF-8 encoding of one Unicode scalar value. -/
def utf8EncodeCp (c : Nat) : List Nat :=
  if c < 0x80 then [c]
  else if c < 0x800 then [0xC0 + c / 64, 0x80 + c % 64]
  else if c < 0x10000 then
    [0xE0 + c / 4096, 0x80 + (c / 64) % 64, 0x80 + c % 64]
  else
    [0xF0 + c / 262144, 0x80 + (c / 4096) % 64, 0x80 + (c / 64) % 64,
     0x80 + c % 64]

/-- `Buffer.from(str, "utf8")`: the UTF-8 bytes of a string (a string is a
list of Unicode scalar values). -/
def utf8Bytes (s : List Nat) : List Nat :=
  s.flatMap utf8EncodeCp

/-- `Buffer.byteLength(str, "utf8")`. -/
def utf8ByteLen (s : List Nat) : Nat :=
  (utf8Bytes s).length

/-- Is `b` a UTF-8 continuation byte? -/
def isContByte (b : Nat) : Bool :=
  0x80 ≤ b && b ≤ 0xBF

/-- One step of the WHATWG UTF-8 decoder: given the first byte and the
remaining bytes, return the decoded scalar value (U+FFFD on error) and how
many additional bytes were consumed. -/
def utf8DecodeStep (b : Nat) (rest : List Nat) : Nat × Nat :=
  if b ≤ 0x7F then (b, 0)
  else if 0xC2 ≤ b && b ≤ 0xDF then
    match rest with
    | b1 :: _ =>
      if isContByte b1 then ((b - 0xC0) * 64 + (b1 - 0x80), 1)
      else (0xFFFD, 0)
    | [] => (0xFFFD, 0)
  else if 0xE0 ≤ b && b ≤ 0xEF then
    let lo1 := if b = 0xE0 then 0xA0 else 0x80
    let hi1 := if b = 0xED then 0x9F else 0xBF
    match rest with
    | b1 :: rest1 =>
      if lo1 ≤ b1 && b1 ≤ hi1 then
        match rest1 with
        | b2 :: _ =>
          if isContByte b2 then
            ((b - 0xE0) * 4096 + (b1 - 0x80) * 64 + (b2 - 0x80), 2)
          else (0xFFFD, 1)
        | [] => (0xFFFD, 1)
      else (0xFFFD, 0)
    | [] => (0xFFFD, 0)
  else if 0xF0 ≤ b && b ≤ 0xF4 then
    let lo1 := if b = 0xF0 then 0x90 else 0x80
    let hi1 := if b = 0xF4 then 0x8F else 0xBF
    match rest with
    | b1 :: rest1 =>
      if lo1 ≤ b1 && b1 ≤ hi1 then
        match rest1 with
        | b2 :: rest2 =>
          if isContByte b2 then
            match rest2 with
            | b3 :: _ =>
              if isContByte b3 then
                ((b - 0xF0) * 262144 + (b1 - 0x80) * 4096 +
                 (b2 - 0x80) * 64 + (b3 - 0x80), 3)
              else (0xFFFD, 2)
            | [] => (0xFFFD, 2)
          else (0xFFFD, 1)
        | [] => (0xFFFD, 1)
      else (0xFFFD, 0)
    | [] => (0xFFFD, 0)
  else (0xFFFD, 0)

/-- `buffer.toString("utf8")`: WHATWG UTF-8 decoding with replacement. -/
def utf8Decode : List Nat → List Nat
  | [] => []
  | b :: rest =>
    let s := utf8DecodeStep b rest
    s.1 :: utf8Decode (rest.drop s.2)
termination_by bs => bs.length
decreasing_by
  simp only [List.length_cons, List.length_drop]
  omega

/-! ## Domain model (`domain/models/chat-message.ts`) -/

/-- `ToolCallStatus`. -/
inductive ToolCallStatus
  | pending
  | inProgress
  | completed
  | failed
deriving DecidableEq, Repr

/-- `ToolKind`. -/
inductive ToolKind
  | read
  | edit
  | delete
  | move
  | search
  | execute
  | think
  | fetch
  | switchMode
  | other
deriving DecidableEq, Repr

/-- Domain `ToolCallContent`: a diff or a terminal reference. -/
inductive ToolCallContent
  | diff (path : String) (newText : String) (oldText : Option (Option String))
  | terminal (terminalId : String)
deriving DecidableEq, Repr

/-- `item.type === "diff"`. -/
def ToolCallContent.isDiff : ToolCallContent → Bool
  | .diff _ _ _ => true
  | .terminal _ => false

/-- `ToolCallLocation`. -/
structure ToolCallLocation where
  path : String
  line : Option (Option Int) := none
deriving DecidableEq, Repr

/-- Kinds of a (normalized) `PermissionOption`. -/
inductive PermKind
  | allowOnce
  | allowAlways
  | rejectOnce
  | rejectAlways
deriving DecidableEq, Repr

/-- Domain `PermissionOption` (kind is required after normalization). -/
structure PermissionOption where
  optionId : String
  name : String
  kind : PermKind
deriving DecidableEq, Repr

/-- The `permissionRequest` field of a `tool_call` message content. -/
structure PermissionRequestData where
  requestId : String
  options : List PermissionOption
  selectedOptionId : Option String := none
  isCancelled : Option Bool := none
  isActive : Option Bool := none
deriving DecidableEq, Repr

/-- The fields of a `tool_call` message content.  All fields except
`toolCallId` are optional because the adapter passes partially-filled
objects to `updateMessage` (which checks each field against `undefined`).
`title` can also be `null`, hence the doubled option. -/
structure ToolCallData where
  toolCallId : String
  title : Option (Option String) := none
  status : Option ToolCallStatus := none
  kind : Option ToolKind := none
  content : Option (List ToolCallContent) := none
  locations : Option (List ToolCallLocation) := none
  permissionRequest : Option PermissionRequestData := none
deriving DecidableEq, Repr

/-- `PlanEntry` (opaque here: the claims never inspect plans). -/
structure PlanEntry where
  content : String
deriving DecidableEq, Repr

/-- `MessageContent` (the variants the verified code paths construct or
inspect; the remaining variants of the union behave like `text` in every
operation modelled here). -/
inductive MessageContent
  | text (txt : String)
  | agentThought (txt : String)
  | toolCall (tc : ToolCallData)
  | plan (entries : List PlanEntry)
  | terminalRef (terminalId : String)
deriving DecidableEq, Repr

/-- `Role`. -/
inductive Role
  | assistant
  | user
deriving DecidableEq, Repr

/-- `ChatMessage`.  The `Date` timestamp is modelled as an opaque `Nat`. -/
structure ChatMessage where
  id : String
  role : Role
  content : List MessageContent
  timestamp : Nat
deriving DecidableEq, Repr

/-! ## `useChat.ts`: message-store operations -/

/-- `addMessage`: `setMessages((prev) => [...prev, message])`. -/
def addMessage (msgs : List ChatMessage) (m : ChatMessage) : List ChatMessage :=
  msgs ++ [m]

/-- The content-merging step of `updateMessage` (useChat.ts lines 222-242):
`mergedContent` starts as `c.content || []`; if the new `content.content`
is not `undefined`, old diff entries are dropped when the new list contains
a diff, and the new list is appended. -/
def mergeToolCallContent (old newc : Option (List ToolCallContent)) :
    List ToolCallContent :=
  let merged := old.getD []
  match newc with
  | none => merged
  | some nc =>
    let merged :=
      if nc.any (·.isDiff) then merged.filter (fun item => !item.isDiff)
      else merged
    merged ++ nc

/-- The per-content-entry transformation of `updateMessage`: an entry `c`
is rewritten when it is a `tool_call` with the requested `toolCallId` and
the new content is itself a `tool_call`; the boolean is the contribution to
the `found` flag. -/
def updateMsgContent (toolCallId : String) (newContent : MessageContent)
    (c : MessageContent) : MessageContent × Bool :=
  match c, newContent with
  | .toolCall tc, .toolCall n =>
    if tc.toolCallId = toolCallId then
      (.toolCall
        { tc with
          toolCallId := n.toolCallId
          title := match n.title with
            | some v => some v
            | none => tc.title
          kind := match n.kind with
            | some v => some v
            | none => tc.kind
          status := match n.status with
            | some v => some v
            | none => tc.status
          content := some (mergeToolCallContent tc.content n.content)
          permissionRequest := match n.permissionRequest with
            | some v => some v
            | none => tc.permissionRequest },
       true)
    else (c, false)
  | _, _ => (c, false)

/-- `updateMessage(toolCallId, content)` of `useChat.ts`: map every message
content entry through `updateMsgContent`; return the updated list when some
entry matched (`found`), the original list otherwise, together with the
`found` flag. -/
def updateMessage (msgs : List ChatMessage) (toolCallId : String)
    (content : MessageContent) : List ChatMessage × Bool :=
  let step := msgs.map (fun m =>
    let rc := m.content.map (updateMsgContent toolCallId content)
    ({ m with content := rc.map Prod.fst }, rc.any Prod.snd))
  let found := step.any Prod.snd
  (if found then step.map Prod.fst else msgs, found)

/-! ## `acp-type-converter.ts`: `AcpTypeConverter.toToolCallContent` -/

/-- `acp.ToolCallContent`: the protocol-side content union (`diff`,
`terminal`, plus a `content` variant the converter ignores). -/
inductive AcpToolCallContent
  | diff (path : String) (newText : String) (oldText : Option (Option String))
  | terminal (terminalId : String)
  | content
deriving DecidableEq, Repr

/-- `AcpTypeConverter.toToolCallContent`: `undefined`/`null` input maps to
`undefined`; `diff` and `terminal` entries are converted, `content` entries
are dropped; an empty result collapses to `undefined`. -/
def toToolCallContent (acpContent : Option (List AcpToolCallContent)) :
    Option (List ToolCallContent) :=
  match acpContent with
  | none => none
  | some l =>
    let converted := l.filterMap (fun item =>
      match item with
      | .diff p n o => some (ToolCallContent.diff p n o)
      | .terminal tid => some (ToolCallContent.terminal tid)
      | .content => none)
    if converted.length > 0 then some converted else none

/-! ## `AcpAdapter.sessionUpdate`: `tool_call` and `tool_call_update` -/

/-- The fields of a `tool_call` session notification (`title` is a required
string there; `status`, `kind`, `content`, `locations` are optional, with
`null` collapsed by `||` / `??` at the use sites). -/
structure ToolCallNotif where
  toolCallId : String
  title : String
  status : Option ToolCallStatus := none
  kind : Option ToolKind := none
  content : Option (List AcpToolCallContent) := none
  locations : Option (List ToolCallLocation) := none
deriving DecidableEq, Repr

/-- The fields of a `tool_call_update` session notification.  `title` can be
a string, `null`, or absent and is forwarded verbatim; `kind` goes through
`update.kind || undefined`; `status` through `update.status || "pending"`;
`locations` through `update.locations ?? undefined` (here `none` stands for
both `null` and `undefined` where the code collapses them). -/
structure ToolCallUpdateNotif where
  toolCallId : String
  title : Option (Option String) := none
  status : Option ToolCallStatus := none
  kind : Option ToolKind := none
  content : Option (List AcpToolCallContent) := none
  locations : Option (List ToolCallLocation) := none
deriving DecidableEq, Repr

/-- The `case "tool_call"` branch of `AcpAdapter.sessionUpdate`: try
`updateMessage` first; only when nothing was updated, append a brand-new
assistant message holding the tool call.  `freshId` stands for the
`crypto.randomUUID()` of the new message and `now` for `new Date()`. -/
def routeToolCall (msgs : List ChatMessage) (u : ToolCallNotif)
    (freshId : String) (now : Nat) : List ChatMessage :=
  let newContent : MessageContent := .toolCall
    { toolCallId := u.toolCallId
      title := some (some u.title)
      status := some (u.status.getD .pending)
      kind := u.kind
      content := toToolCallContent u.content
      locations := u.locations }
  let r := updateMessage msgs u.toolCallId newContent
  if r.2 then r.1
  else addMessage r.1
    { id := freshId
      role := .assistant
      content := [newContent]
      timestamp := now }

/-- The `case "tool_call_update"` branch of `AcpAdapter.sessionUpdate`:
unconditionally `updateMessage`; the `found` result is discarded and no
message is ever created. -/
def routeToolCallUpdate (msgs : List ChatMessage) (u : ToolCallUpdateNotif) :
    List ChatMessage :=
  (updateMessage msgs u.toolCallId (.toolCall
    { toolCallId := u.toolCallId
      title := u.title
      status := some (u.status.getD .pending)
      kind := u.kind
      content := toToolCallContent u.content
      locations := u.locations })).1

/-! ## `terminal-manager.ts` -/

/-- `{ exitCode: number | null; signal: string | null }`. -/
structure ExitStatus where
  exitCode : Option Int
  signal : Option String
deriving DecidableEq, Repr

/-- One `TerminalProcess` record.  The output string is a list of Unicode
scalar values; `waitPromises` holds opaque tokens identifying the promise
resolvers blocked in `waitForExit`. -/
structure TerminalEntry where
  output : List Nat := []
  exitStatus : Option ExitStatus := none
  outputByteLimit : Option Nat := none
  waitPromises : List Nat := []
  cleanupScheduled : Bool := false
deriving DecidableEq, Repr

/-- `TerminalManager.appendOutput`: append, then, when a (non-zero) byte
limit is configured and exceeded, keep the last `limit` UTF-8 bytes of the
buffer and decode them back to a string (`bytes.subarray(bytes.length -
limit).toString("utf8")`). -/
def appendOutputEntry (t : TerminalEntry) (data : List Nat) : TerminalEntry :=
  let out := t.output ++ data
  match t.outputByteLimit with
  | some limit =>
    if limit ≠ 0 ∧ utf8ByteLen out > limit then
      let bytes := utf8Bytes out
      { t with output := utf8Decode (bytes.drop (bytes.length - limit)) }
    else { t with output := out }
  | none => { t with output := out }

/-- The `childProcess.on("error", ...)` handler installed by
`createTerminal`: record exit status `{exitCode: 127, signal: null}` and
resolve every waiting promise with it.  The second component lists the
resolutions performed: `(token, status)` for each formerly blocked waiter. -/
def handleProcessError (t : TerminalEntry) :
    TerminalEntry × List (Nat × ExitStatus) :=
  let st : ExitStatus := { exitCode := some 127, signal := none }
  ({ t with exitStatus := some st, waitPromises := [] },
   t.waitPromises.map (fun w => (w, st)))

/-- The `childProcess.on("exit", ...)` handler of `createTerminal`. -/
def handleProcessExit (t : TerminalEntry) (code : Option Int)
    (signal : Option String) : TerminalEntry × List (Nat × ExitStatus) :=
  let st : ExitStatus := { exitCode := code, signal := signal }
  ({ t with exitStatus := some st, waitPromises := [] },
   t.waitPromises.map (fun w => (w, st)))

/-- The terminal registry (`this.terminals`), an insertion-ordered map. -/
abbrev TerminalRegistry := List (String × TerminalEntry)

/-- `Map.get`. -/
def registryGet (r : TerminalRegistry) (tid : String) : Option TerminalEntry :=
  (r.find? (fun e => e.1 = tid)).map Prod.snd

/-- Update the entry stored under `tid` (mutation of the captured
`terminal` object in the TS closures). -/
def registrySet (r : TerminalRegistry) (tid : String) (t : TerminalEntry) :
    TerminalRegistry :=
  r.map (fun e => if e.1 = tid then (tid, t) else e)

/-- The outcome of `TerminalManager.waitForExit(terminalId)`:
`none` when the terminal id is unknown (rejected promise); otherwise the
possibly-updated registry and `some status` for an immediate resolution or
`none` when the waiter token was enqueued in `waitPromises`. -/
def tmWaitForExit (r : TerminalRegistry) (tid : String) (w : Nat) :
    Option (TerminalRegistry × Option ExitStatus) :=
  match registryGet r tid with
  | none => none
  | some t =>
    match t.exitStatus with
    | some st => some (r, some st)
    | none =>
      some (registrySet r tid { t with waitPromises := t.waitPromises ++ [w] },
            none)

/-- The spawn-error event arriving for terminal `tid`: apply
`handleProcessError` to the stored entry. -/
def tmHandleProcessError (r : TerminalRegistry) (tid : String) :
    TerminalRegistry × List (Nat × ExitStatus) :=
  match registryGet r tid with
  | none => (r, [])
  | some t =>
    let h := handleProcessError t
    (registrySet r tid h.1, h.2)

/-- `TerminalManager.killAllTerminals`: clears every cleanup timer, sends
SIGTERM to each still-running process (an external effect with no
synchronous state change), then clears the registry. -/
def killAllTerminals (_r : TerminalRegistry) : TerminalRegistry :=
  []

/-! ## Permission arbitration (`AcpAdapter`) -/

/-- A protocol-side `acp.PermissionOption` before normalization: `kind`
may be absent. -/
structure AcpPermissionOption where
  optionId : String
  name : String
  kind : Option PermKind := none
deriving DecidableEq, Repr

/-- Option normalization in `requestPermission`: `reject_always` collapses
to `reject_once`; a missing kind is inferred from the option name
(`"allow"` substring, case-insensitively). -/
def normalizeOption (o : AcpPermissionOption) : PermissionOption :=
  let normalizedKind : Option PermKind :=
    if o.kind = some .rejectAlways then some .rejectOnce else o.kind
  let kind : PermKind :=
    match normalizedKind with
    | some k => k
    | none =>
      if strContains (strToLower o.name) "allow" then .allowOnce
      else .rejectOnce
  { optionId := o.optionId, name := o.name, kind := kind }

/-- The predicate of the auto-allow `find`: kind `allow_once` or
`allow_always`, or no kind and a name containing "allow". -/
def isAllowOption (o : AcpPermissionOption) : Bool :=
  o.kind = some .allowOnce || o.kind = some .allowAlways ||
    (o.kind = none && strContains (strToLower o.name) "allow")

/-- The auto-allow branch of `requestPermission`:
`params.options.find(...) || params.options[0]`, then take its `optionId`.
`none` corresponds to the `TypeError` thrown when `params.options` is
empty (`undefined.optionId`). -/
def autoAllowOptionId (options : List AcpPermissionOption) : Option String :=
  match options.find? isAllowOption with
  | some o => some o.optionId
  | none => (options.head?).map (·.optionId)

/-- The `params.toolCall` field of an `acp.RequestPermissionRequest`
(the fields `requestPermission` reads). -/
structure PermToolCallInfo where
  toolCallId : String
  title : Option (Option String) := none
  status : Option ToolCallStatus := none
  kind : Option ToolKind := none
  content : Option (List AcpToolCallContent) := none
deriving DecidableEq, Repr

/-- An `acp.RequestPermissionRequest` as read by `requestPermission`. -/
structure PermParams where
  options : List AcpPermissionOption
  toolCall : Option PermToolCallInfo := none
deriving DecidableEq, Repr

/-- One entry of `pendingPermissionQueue`. -/
structure QueueEntry where
  requestId : String
  toolCallId : String
  options : List PermissionOption
deriving DecidableEq, Repr

/-- The value stored in the `pendingPermissionRequests` map (the promise
resolver is represented by the request id itself; resolutions are reported
as explicit return values). -/
structure PendingEntry where
  toolCallId : String
  options : List PermissionOption
deriving DecidableEq, Repr

/-- The permission-and-message state owned by one `AcpAdapter` instance. -/
structure AdapterState where
  messages : List ChatMessage
  pendingPermissionRequests : List (String × PendingEntry)
  pendingPermissionQueue : List QueueEntry
  terminals : TerminalRegistry
deriving DecidableEq

/-- JS `Map.prototype.get`. -/
def mapGet (m : List (String × PendingEntry)) (k : String) :
    Option PendingEntry :=
  (m.find? (fun e => e.1 = k)).map Prod.snd

/-- JS `Map.prototype.set`: replace in place or append. -/
def mapSet (m : List (String × PendingEntry)) (k : String)
    (v : PendingEntry) : List (String × PendingEntry) :=
  if m.any (fun e => e.1 = k) then
    m.map (fun e => if e.1 = k then (k, v) else e)
  else m ++ [(k, v)]

/-- JS `Map.prototype.delete`. -/
def mapDelete (m : List (String × PendingEntry)) (k : String) :
    List (String × PendingEntry) :=
  m.filter (fun e => e.1 ≠ k)

/-- The outcome a permission promise is resolved with. -/
inductive PermOutcome
  | selected (optionId : String)
  | cancelled
deriving DecidableEq, Repr

/-- The non-auto-allow path of `AcpAdapter.requestPermission`.
`freshReqId` and `freshTcId` stand for the two `crypto.randomUUID()`
calls; `freshMsgId`/`now` for the id and timestamp of a newly created
message.  Steps, in source order: compute the tool-call id
(`params.toolCall?.toolCallId || randomUUID()`), normalize options, read
`isFirstRequest` from the queue length, push the queue entry, try
`updateMessage`, create a message when nothing was updated and the
tool-call info carries a (truthy) title, and register the pending entry. -/
def requestPermissionStep (s : AdapterState) (params : PermParams)
    (freshReqId freshTcId freshMsgId : String) (now : Nat) : AdapterState :=
  let requestId := freshReqId
  let toolCallId :=
    match params.toolCall with
    | some tc => if tc.toolCallId = "" then freshTcId else tc.toolCallId
    | none => freshTcId
  let normalizedOptions := params.options.map normalizeOption
  let isFirstRequest := s.pendingPermissionQueue.length = 0
  let permissionRequestData : PermissionRequestData :=
    { requestId := requestId
      options := normalizedOptions
      isActive := some isFirstRequest }
  let queue1 := s.pendingPermissionQueue ++
    [{ requestId := requestId, toolCallId := toolCallId,
       options := normalizedOptions }]
  let r := updateMessage s.messages toolCallId
    (.toolCall { toolCallId := toolCallId,
                 permissionRequest := some permissionRequestData })
  let msgs1 :=
    if !r.2 then
      match params.toolCall with
      | some info =>
        match info.title with
        | some (some t) =>
          if t ≠ "" then
            addMessage r.1
              { id := freshMsgId
                role := .assistant
                content := [.toolCall
                  { toolCallId := info.toolCallId
                    title := some (some t)
                    status := some (info.status.getD .pending)
                    kind := info.kind
                    content := toToolCallContent info.content
                    permissionRequest := some permissionRequestData }]
                timestamp := now }
          else r.1
        | _ => r.1
      | none => r.1
    else r.1
  { s with
    messages := msgs1
    pendingPermissionQueue := queue1
    pendingPermissionRequests :=
      mapSet s.pendingPermissionRequests requestId
        { toolCallId := toolCallId, options := normalizedOptions } }

/-- `AcpAdapter.activateNextPermission`: when the queue is non-empty and
its head is still pending, mark that request active in the UI. -/
def activateNextPermission (s : AdapterState) : AdapterState :=
  match s.pendingPermissionQueue.head? with
  | none => s
  | some next =>
    match mapGet s.pendingPermissionRequests next.requestId with
    | none => s
    | some pending =>
      { s with
        messages := (updateMessage s.messages next.toolCallId
          (.toolCall
            { toolCallId := next.toolCallId
              permissionRequest := some
                { requestId := next.requestId
                  options := pending.options
                  isActive := some true } })).1 }

/-- `AcpAdapter.handlePermissionResponse`: no-op when the request id is
unknown; otherwise reflect the selection in the UI, resolve the promise
with the selected option (reported in the second component), drop the
entry from the map and the queue, and activate the next queued request. -/
def handlePermissionResponseStep (s : AdapterState)
    (requestId optionId : String) : AdapterState × Option PermOutcome :=
  match mapGet s.pendingPermissionRequests requestId with
  | none => (s, none)
  | some request =>
    let msgs1 := (updateMessage s.messages request.toolCallId
      (.toolCall
        { toolCallId := request.toolCallId
          permissionRequest := some
            { requestId := requestId
              options := request.options
              selectedOptionId := some optionId
              isActive := some false } })).1
    let s1 : AdapterState :=
      { s with
        messages := msgs1
        pendingPermissionRequests :=
          mapDelete s.pendingPermissionRequests requestId
        pendingPermissionQueue :=
          s.pendingPermissionQueue.filter
            (fun entry => entry.requestId ≠ requestId) }
    (activateNextPermission s1, some (.selected optionId))

/-- `AcpAdapter.cancelPendingPermissionRequests`: for every pending entry
(in map order) update the UI to the cancelled state, resolve its promise
with the cancelled outcome (second component), then clear the map and the
queue. -/
def cancelPendingPermissionRequests (s : AdapterState) :
    AdapterState × List (String × PermOutcome) :=
  let msgs1 := s.pendingPermissionRequests.foldl
    (fun msgs e =>
      (updateMessage msgs e.2.toolCallId
        (.toolCall
          { toolCallId := e.2.toolCallId
            status := some .completed
            permissionRequest := some
              { requestId := e.1
                options := e.2.options
                isCancelled := some true
                isActive := some false } })).1)
    s.messages
  ({ s with
     messages := msgs1
     pendingPermissionRequests := []
     pendingPermissionQueue := [] },
   s.pendingPermissionRequests.map (fun e => (e.1, PermOutcome.cancelled)))

/-- `AcpAdapter.cancelAllOperations`: cancel pending permission requests,
then kill all terminals. -/
def cancelAllOperationsStep (s : AdapterState) : AdapterState :=
  let s1 := (cancelPendingPermissionRequests s).1
  { s1 with terminals := killAllTerminals s1.terminals }

/-- `AcpAdapter.requestPermission` in full: the auto-allow branch resolves
immediately (with the chosen option id) and leaves the state untouched;
otherwise the request is queued via `requestPermissionStep` and the
promise stays pending (`none`). -/
def requestPermission (autoAllow : Bool) (s : AdapterState)
    (params : PermParams) (freshReqId freshTcId freshMsgId : String)
    (now : Nat) : AdapterState × Option PermOutcome :=
  if autoAllow then
    (s, (autoAllowOptionId params.options).map PermOutcome.selected)
  else
    (requestPermissionStep s params freshReqId freshTcId freshMsgId now, none)

/-! ## Error classification (`AcpAdapter.sendMessage`, `getErrorInfo`,
process event handlers) -/

/-- `AgentErrorCategory`. -/
inductive AgentErrorCategory
  | connection
  | authentication
  | configuration
  | communication
  | permission
  | timeout
  | rateLimit
  | unknown
deriving DecidableEq, Repr

/-- The `details` field of a JSON-RPC error's `data` object: present as a
string, present with a non-string value, or absent. -/
inductive DetailsField
  | str (s : String)
  | nonStr
deriving DecidableEq, Repr

/-- The `data` field of a JSON-RPC error: absent, a non-object value, or
an object with an optional `details` field. -/
inductive ErrorDataField
  | notObj
  | obj (details : Option DetailsField)
deriving DecidableEq, Repr

/-- The shape of an error thrown by `connection.prompt` as inspected by
the catch branch of `sendMessage`: an optional numeric `code` (`none`
covers a missing or non-numeric code, which fails the `=== -32603` check
the same way) and an optional `data` field. -/
structure PromptError where
  code : Option Int := none
  data : Option ErrorDataField := none
deriving DecidableEq, Repr

/-- What the catch branch of `sendMessage` does: the error surfaced
through the error callback (if any) and whether the error is rethrown. -/
structure SendCatchResult where
  surfacedCategory : Option AgentErrorCategory
  surfacedTitle : Option String
  rethrown : Bool
deriving DecidableEq, Repr

/-- The catch branch of `AcpAdapter.sendMessage` (acp-type-converter.ts
lines 1398-1452), with the nested shape checks mirrored one by one:
errors with `code === -32603` and a string `data.details` containing
"empty response text" or "user aborted" return silently; every other
error is reported as a `communication` error titled "Message Send Failed"
and rethrown. -/
def sendMessageCatch (e : PromptError) : SendCatchResult :=
  let ignorable :=
    if e.code = some (-32603) then
      match e.data with
      | some (.obj (some (.str details))) =>
        strContains details "empty response text" ||
          strContains details "user aborted"
      | some _ => false
      | none => false
    else false
  if ignorable then
    { surfacedCategory := none, surfacedTitle := none, rethrown := false }
  else
    { surfacedCategory := some .communication
      surfacedTitle := some "Message Send Failed"
      rethrown := true }

/-- A surfaced `AgentError`, restricted to the fields the claims are
about. -/
structure SurfacedError where
  category : AgentErrorCategory
  title : String
  message : String
deriving DecidableEq, Repr

/-- `AcpAdapter.getErrorInfo`: title and message of a spawn error, keyed
on whether `error.code === "ENOENT"`. -/
def getErrorInfo (errCode : Option String) (command agentLabel : String) :
    String × String :=
  if errCode = some "ENOENT" then
    ("Command Not Found",
     "The command \"" ++ command ++ "\" could not be found. " ++
       "Please check the path configuration for " ++ agentLabel ++ ".")
  else
    ("Agent Startup Error", "Failed to start " ++ agentLabel ++ ".")

/-- The `agentProcess.on("error", ...)` handler of `AcpAdapter.initialize`:
the surfaced error always has category `connection`, with title and
message from `getErrorInfo`. -/
def processErrorEvent (errCode : Option String) (command agentLabel : String) :
    SurfacedError :=
  let info := getErrorInfo errCode command agentLabel
  { category := .connection, title := info.1, message := info.2 }

/-- The `agentProcess.on("exit", ...)` handler of `AcpAdapter.initialize`:
only exit code 127 surfaces an error, a `configuration` error titled
"Command Not Found". -/
def processExitEvent (code : Option Int) (command agentLabel : String) :
    Option SurfacedError :=
  if code = some 127 then
    some
      { category := .configuration
        title := "Command Not Found"
        message :=
          "The command \"" ++ command ++ "\" could not be found. " ++
            "Please check the path configuration for " ++ agentLabel ++ "." }
  else none

/-! ## Derived notions used by the theorems -/

/-- Is `c` a `tool_call` content entry with the given tool-call id? -/
def isToolCallWith (tid : String) (c : MessageContent) : Bool :=
  match c with
  | .toolCall tc => tc.toolCallId = tid
  | _ => false

/-- All content entries of a message list, in order. -/
def allContents : List ChatMessage → List MessageContent
  | [] => []
  | m :: t => m.content ++ allContents t

/-- Number of messages containing a `tool_call` entry with the given id. -/
def toolCallMsgCount (msgs : List ChatMessage) (tid : String) : Nat :=
  msgs.countP (fun m => m.content.any (isToolCallWith tid))

/-- The request id carried by a content entry that shows an *active*
permission request, if any. -/
def activeRid (c : MessageContent) : Option String :=
  match c with
  | .toolCall tc =>
    match tc.permissionRequest with
    | some pr => if pr.isActive = some true then some pr.requestId else none
    | none => none
  | _ => none

/-- The request ids of all active permission requests visible in the
message list of a state. -/
def activeRequestIds (s : AdapterState) : List String :=
  (allContents s.messages).filterMap activeRid

/-- A `tool_call_update` for an id no message carries, with a title: the
input of the C1 counterexample. -/
def c1UnknownUpdate : ToolCallUpdateNotif :=
  { toolCallId := "tc-unknown", title := some (some "Read note") }

/-- An adapter state with no pending permission request, no queued
request, and a single already-exited (hence not running) terminal in the
registry: the input of the C9 counterexample. -/
def c9ExState : AdapterState :=
  { messages := []
    pendingPermissionRequests := []
    pendingPermissionQueue := []
    terminals := [("t1",
      { output := []
        exitStatus := some { exitCode := some 0, signal := none }
        outputByteLimit := none
        waitPromises := []
        cleanupScheduled := false })] }

/-- A concrete permission request used as a witness input: a reject
option followed by a kindless option whose name contains "Allow". -/
def permWitnessParams : PermParams :=
  { options := [{ optionId := "o-rej", name := "Reject",
                  kind := some .rejectOnce },
                { optionId := "o-all", name := "Allow edits",
                  kind := none }] }

/-- The arbitration invariant tying an adapter state to the list `reqs`
of its outstanding permission requests, oldest first: the FIFO queue is
exactly `reqs`; the pending table holds exactly the same requests in the
same order; request ids and tool-call ids are pairwise distinct; every
outstanding request points at exactly one tool-call content entry; and
the active flags visible in the messages single out precisely the queue
head. -/
def ArbInv (s : AdapterState) (reqs : List QueueEntry) : Prop :=
  s.pendingPermissionQueue = reqs ∧
  s.pendingPermissionRequests =
    reqs.map (fun e => (e.requestId,
      ({ toolCallId := e.toolCallId, options := e.options } :
        PendingEntry))) ∧
  (reqs.map (fun e => e.requestId)).Nodup ∧
  (reqs.map (fun e => e.toolCallId)).Nodup ∧
  (∀ e ∈ reqs,
    (allContents s.messages).countP (isToolCallWith e.toolCallId) = 1) ∧
  (∀ c ∈ allContents s.messages,
    activeRid c =
      match reqs.head? with
      | some h =>
        if isToolCallWith h.toolCallId c then some h.requestId else none
      | none => none)

/-- A clean one-tool-call state: the C4 witness starting point. -/
def c4State0 : AdapterState :=
  { messages := [
      { id := "m1", role := .assistant,
        content := [.toolCall { toolCallId := "t1" }], timestamp := 0 }]
    pendingPermissionRequests := []
    pendingPermissionQueue := []
    terminals := [] }

/-- A concrete permission request against tool call "t1": the C4 witness
arrival. -/
def c4Params1 : PermParams :=
  { options := [{ optionId := "o-yes", name := "Allow",
                  kind := some .allowOnce }]
    toolCall := some { toolCallId := "t1", title := some (some "Edit") } }

/-- The queue entry the C4 witness arrival creates. -/
def c4Entry1 : QueueEntry :=
  { requestId := "r1", toolCallId := "t1"
    options := c4Params1.options.map normalizeOption }

/-- The entry-wise rewrite applied by `updateMessage`. -/
def updContentFn (tid : String) (c : MessageContent) (x : MessageContent) :
    MessageContent :=
  (updateMsgContent tid c x).1

/-- The message-wise rewrite applied by `updateMessage`. -/
def updMsgFn (tid : String) (c : MessageContent) (m : ChatMessage) :
    ChatMessage :=
  { m with content := m.content.map (updContentFn tid c) }

/-! ## Lemmas about `updateMessage` -/

theorem updateMsgContent_snd_false (tid : String) (c x : MessageContent)
    (h : (updateMsgContent tid c x).2 = false) :
    (updateMsgContent tid c x).1 = x := by
  cases x <;> cases c <;> simp only [updateMsgContent] at h ⊢
  split at h
  · simp at h
  · next hne => simp only [if_neg hne]

theorem updateMsgContent_snd_toolCall (tid : String) (n : ToolCallData)
    (x : MessageContent) :
    (updateMsgContent tid (.toolCall n) x).2 = isToolCallWith tid x := by
  cases x <;> simp only [updateMsgContent, isToolCallWith]
  split <;> simp_all

theorem map_any_snd_false {α β : Type} (l : List α) (f : α → β × Bool)
    (h : (l.map f).any Prod.snd = false) : ∀ x ∈ l, (f x).2 = false := by
  intro x hx
  rw [List.any_eq_false] at h
  have hh := h (f x) (List.mem_map_of_mem f hx)
  cases hfx : (f x).2
  · rfl
  · exact absurd hfx hh

/-- `updateMessage` always returns the entry-wise rewritten list: when no
entry matches, the rewrite is the identity, so the `found`-test of the
source is immaterial for the first component. -/
theorem updateMessage_fst (msgs : List ChatMessage) (tid : String)
    (c : MessageContent) :
    (updateMessage msgs tid c).1 = msgs.map (updMsgFn tid c) := by
  unfold updateMessage
  simp only [List.map_map]
  split
  · rfl
  · next hf =>
    rw [Bool.not_eq_true] at hf
    have hall := map_any_snd_false _ _ hf
    have hmm : ∀ m ∈ msgs, updMsgFn tid c m = m := by
      intro m hm
      have h2 : ∀ x ∈ m.content, updContentFn tid c x = x := by
        intro x hx
        have hfl : ∀ x ∈ m.content, (updateMsgContent tid c x).2 = false :=
          map_any_snd_false _ _ (hall m hm)
        exact updateMsgContent_snd_false tid c x (hfl x hx)
      obtain ⟨mid, mrole, mcontent, mts⟩ := m
      simp only [updMsgFn, ChatMessage.mk.injEq, true_and, and_true]
      exact List.map_congr_left h2 |>.trans (List.map_id _)
    exact (List.map_congr_left hmm |>.trans (List.map_id _)).symm

/-- The `found` flag of `updateMessage` for a `tool_call` update is exactly
"some message contains a `tool_call` entry with that id". -/
theorem updateMessage_snd (msgs : List ChatMessage) (tid : String)
    (n : ToolCallData) :
    (updateMessage msgs tid (.toolCall n)).2 =
      msgs.any (fun m => m.content.any (isToolCallWith tid)) := by
  unfold updateMessage
  induction msgs with
  | nil => rfl
  | cons m t ih =>
    simp only [List.map_cons, List.any_cons, List.any_map, Function.comp] at ih ⊢
    rw [ih]
    congr 1
    induction m.content with
    | nil => rfl
    | cons x xs ihc =>
      simp only [List.map_cons, List.any_cons] at ihc ⊢
      rw [ihc, updateMsgContent_snd_toolCall]

/-- The rewrite of `updateMessage` for a `tool_call` update whose payload
carries the same id preserves which entries are tool calls with which id. -/
theorem isToolCallWith_updContentFn (tid t : String) (n : ToolCallData)
    (x : MessageContent) (hn : n.toolCallId = tid) :
    isToolCallWith t (updContentFn tid (.toolCall n) x) =
      isToolCallWith t x := by
  cases x <;> simp only [updContentFn, updateMsgContent, isToolCallWith]
  next tc =>
  by_cases h : tc.toolCallId = tid
  · simp [h, hn, isToolCallWith]
  · simp [h, isToolCallWith]

/-- How the rewrite of `updateMessage` changes the active-permission
projection of a content entry, when the payload carries a
`permissionRequest`. -/
theorem activeRid_updContentFn (tid : String) (n : ToolCallData)
    (pr : PermissionRequestData) (x : MessageContent)
    (hpr : n.permissionRequest = some pr) :
    activeRid (updContentFn tid (.toolCall n) x) =
      if isToolCallWith tid x then
        (if pr.isActive = some true then some pr.requestId else none)
      else activeRid x := by
  cases x <;>
    simp only [updContentFn, updateMsgContent, isToolCallWith, activeRid,
      if_neg Bool.false_ne_true]
  case toolCall tc =>
    by_cases h : tc.toolCallId = tid
    · simp only [if_pos h, activeRid, hpr]
      split <;> simp_all
    · simp only [if_neg h, activeRid]
      split <;> simp_all

/-- `allContents` of an appended list. -/
theorem allContents_append (a b : List ChatMessage) :
    allContents (a ++ b) = allContents a ++ allContents b := by
  induction a with
  | nil => rfl
  | cons m t ih => simp [allContents, ih]

/-- `allContents` after the message-wise rewrite of `updateMessage` is the
entry-wise rewrite of `allContents`. -/
theorem allContents_map_updMsgFn (msgs : List ChatMessage) (tid : String)
    (c : MessageContent) :
    allContents (msgs.map (updMsgFn tid c)) =
      (allContents msgs).map (updContentFn tid c) := by
  induction msgs with
  | nil => rfl
  | cons m t ih =>
    simp only [List.map_cons, allContents, ih, List.map_append, updMsgFn]

/-- Membership in `allContents`. -/
theorem mem_allContents {c : MessageContent} {msgs : List ChatMessage} :
    c ∈ allContents msgs ↔ ∃ m ∈ msgs, c ∈ m.content := by
  induction msgs with
  | nil => simp [allContents]
  | cons m t ih =>
    simp only [allContents, List.mem_append, ih, List.mem_cons]
    constructor
    · rintro (h | ⟨m', hm', hc⟩)
      · exact ⟨m, Or.inl rfl, h⟩
      · exact ⟨m', Or.inr hm', hc⟩
    · rintro ⟨m', (rfl | hm'), hc⟩
      · exact Or.inl hc
      · exact Or.inr ⟨m', hm', hc⟩

/-- `msgs.any (has tool call tid)` through `allContents`. -/
theorem any_toolCall_eq (msgs : List ChatMessage) (tid : String) :
    msgs.any (fun m => m.content.any (isToolCallWith tid)) = true ↔
      ∃ c ∈ allContents msgs, isToolCallWith tid c = true := by
  simp only [List.any_eq_true, mem_allContents]
  constructor
  · rintro ⟨m, hm, x, hx, hpx⟩
    exact ⟨x, ⟨m, hm, hx⟩, hpx⟩
  · rintro ⟨x, ⟨m, hm, hx⟩, hpx⟩
    exact ⟨m, hm, x, hx, hpx⟩

/-- Entry-wise count preservation under the `updateMessage` rewrite. -/
theorem countP_updContentFn (l : List MessageContent) (tid t : String)
    (n : ToolCallData) (hn : n.toolCallId = tid) :
    (l.map (updContentFn tid (.toolCall n))).countP (isToolCallWith t) =
      l.countP (isToolCallWith t) := by
  induction l with
  | nil => rfl
  | cons x xs ih =>
    simp only [List.map_cons, List.countP_cons, ih,
      isToolCallWith_updContentFn tid t n x hn]

/-- `any` is false exactly when `countP` is zero. -/
theorem any_eq_false_iff_countP_zero {α : Type} (l : List α) (p : α → Bool) :
    l.any p = false ↔ l.countP p = 0 := by
  rw [List.any_eq_false, List.countP_eq_zero]

/-! ## Lemmas about the permission maps and projections -/

theorem mapGet_mapDelete (m : List (String × PendingEntry)) (k : String) :
    mapGet (mapDelete m k) k = none := by
  induction m with
  | nil => rfl
  | cons e t ih =>
    simp only [mapDelete, List.filter_cons] at ih ⊢
    by_cases h : e.1 = k
    · rw [if_neg (by simp [h])]
      exact ih
    · rw [if_pos (by simp [h])]
      rw [show mapGet (e :: List.filter (fun e => decide ¬e.1 = k) t) k =
        mapGet (List.filter (fun e => decide ¬e.1 = k) t) k from by
          simp [mapGet, List.find?, h]]
      exact ih

/-- `activateNextPermission` only touches the messages. -/
theorem activateNextPermission_proj (s : AdapterState) :
    (activateNextPermission s).pendingPermissionRequests =
        s.pendingPermissionRequests ∧
      (activateNextPermission s).pendingPermissionQueue =
        s.pendingPermissionQueue ∧
      (activateNextPermission s).terminals = s.terminals := by
  unfold activateNextPermission
  split
  · exact ⟨rfl, rfl, rfl⟩
  · split
    · exact ⟨rfl, rfl, rfl⟩
    · exact ⟨rfl, rfl, rfl⟩

/-! ## Claim theorems -/

/-- C3 (the code violates the claim): with a configured output byte limit
of 1, appending the single character U+00E9 ("é", two UTF-8 bytes) makes
`appendOutput` cut the buffer inside the character: the stored buffer
becomes U+FFFD, whose UTF-8 byte length is 3 > 1, and it is not a suffix
of the accumulated output (the limit is exceeded and the split is not at
a character boundary, contradicting both the claim and the code's own
comment). -/
theorem C3_byte_limit_violated :
    appendOutputEntry { outputByteLimit := some 1 } [0xE9] =
      { output := [0xFFFD], outputByteLimit := some 1 } ∧
    utf8ByteLen [0xFFFD] = 3 ∧
    ¬ utf8ByteLen
        (appendOutputEntry { outputByteLimit := some 1 } [0xE9]).output ≤ 1 ∧
    (∀ k : Nat,
      (appendOutputEntry { outputByteLimit := some 1 } [0xE9]).output ≠
        (([] : List Nat) ++ [0xE9]).drop k) := by
  have hdec : utf8Decode [0xA9] = [0xFFFD] := by
    simp [utf8Decode, utf8DecodeStep, isContByte]
  have happ : appendOutputEntry { outputByteLimit := some 1 } [0xE9] =
      { output := [0xFFFD], outputByteLimit := some 1 } := by
    simp [appendOutputEntry, utf8ByteLen, utf8Bytes, utf8EncodeCp, hdec]
  refine ⟨happ, by decide, ?_, ?_⟩
  · rw [happ]
    decide
  · intro k
    rw [happ]
    cases k with
    | zero => decide
    | succ k => simp

/-- C5: resolving a request id that is absent from the pending-permission
table is a silent no-op (state unchanged, no promise resolved), and of two
resolve calls for the same request the second is always a silent no-op. -/
theorem C5_unknown_resolve_noop :
    (∀ (s : AdapterState) (requestId optionId : String),
        mapGet s.pendingPermissionRequests requestId = none →
        handlePermissionResponseStep s requestId optionId = (s, none)) ∧
    (∀ (s : AdapterState) (requestId optionId optionId2 : String),
        handlePermissionResponseStep
            (handlePermissionResponseStep s requestId optionId).1
            requestId optionId2 =
          ((handlePermissionResponseStep s requestId optionId).1, none)) := by
  have h1 : ∀ (s : AdapterState) (requestId optionId : String),
      mapGet s.pendingPermissionRequests requestId = none →
      handlePermissionResponseStep s requestId optionId = (s, none) := by
    intro s rid oid h
    unfold handlePermissionResponseStep
    rw [h]
  refine ⟨h1, ?_⟩
  intro s rid oid oid2
  apply h1
  cases hg : mapGet s.pendingPermissionRequests rid with
  | none =>
    rw [h1 s rid oid hg]
    exact hg
  | some entry =>
    have hstep :
        (handlePermissionResponseStep s rid oid).1.pendingPermissionRequests =
          mapDelete s.pendingPermissionRequests rid := by
      unfold handlePermissionResponseStep
      rw [hg]
      exact (activateNextPermission_proj _).1
    rw [hstep]
    exact mapGet_mapDelete _ _

/-- C5 witness: resolving against an empty pending table is a no-op, and
a second resolve after a first one is a no-op, at a concrete state. -/
theorem C5_witness :
    handlePermissionResponseStep c9ExState "r1" "o1" = (c9ExState, none) ∧
    handlePermissionResponseStep
        (handlePermissionResponseStep c9ExState "r1" "o1").1 "r1" "o2" =
      ((handlePermissionResponseStep c9ExState "r1" "o1").1, none) :=
  ⟨C5_unknown_resolve_noop.1 c9ExState "r1" "o1" (by decide),
   C5_unknown_resolve_noop.2 c9ExState "r1" "o1" "o2"⟩

/-- C6: with auto-allow enabled, `requestPermission` resolves immediately
with the option id of the first option classified as an allow option
(kind `allow_once`/`allow_always`, or kindless with a name containing
"allow"), falling back to the first option overall, and leaves the state
(queue, pending table, messages, terminals) untouched. -/
theorem C6_auto_allow (s : AdapterState) (params : PermParams)
    (a b c : String) (now : Nat) (h : params.options ≠ []) :
    ∃ o : AcpPermissionOption,
      (params.options.find? isAllowOption = some o ∨
        (params.options.find? isAllowOption = none ∧
          params.options.head? = some o)) ∧
      requestPermission true s params a b c now =
        (s, some (.selected o.optionId)) := by
  rcases hf : params.options.find? isAllowOption with _ | o
  · rcases hh : params.options.head? with _ | o
    · rw [List.head?_eq_none_iff] at hh
      exact absurd hh h
    · refine ⟨o, Or.inr ⟨rfl, rfl⟩, ?_⟩
      simp [requestPermission, autoAllowOptionId, hf, hh]
  · refine ⟨o, Or.inl rfl, ?_⟩
    simp [requestPermission, autoAllowOptionId, hf]

/-- C6 witness: the auto-allow theorem at a concrete request (a kindless
option whose name contains "Allow", after a reject option). -/
theorem C6_witness :
    ∃ o : AcpPermissionOption,
      ((permWitnessParams.options.find? isAllowOption = some o) ∨
        (permWitnessParams.options.find? isAllowOption = none ∧
          permWitnessParams.options.head? = some o)) ∧
      requestPermission true c9ExState permWitnessParams "r" "t" "m" 0 =
        (c9ExState, some (.selected o.optionId)) :=
  C6_auto_allow c9ExState permWitnessParams "r" "t" "m" 0 (by decide)

/-- C7: a prompt error with code -32603 and a string `data.details`
containing "empty response text" or "user aborted" is swallowed (no error
callback, no rethrow); every other prompt error is surfaced as a
communication-category "Message Send Failed" error and rethrown. -/
theorem C7_benign_prompt_errors (e : PromptError) :
    ((e.code = some (-32603) ∧
        ∃ d, e.data = some (.obj (some (.str d))) ∧
          (strContains d "empty response text" = true ∨
            strContains d "user aborted" = true)) →
      sendMessageCatch e =
        { surfacedCategory := none, surfacedTitle := none,
          rethrown := false }) ∧
    (¬ (e.code = some (-32603) ∧
        ∃ d, e.data = some (.obj (some (.str d))) ∧
          (strContains d "empty response text" = true ∨
            strContains d "user aborted" = true)) →
      sendMessageCatch e =
        { surfacedCategory := some .communication,
          surfacedTitle := some "Message Send Failed",
          rethrown := true }) := by
  constructor
  · rintro ⟨hc, d, hd, hor⟩
    rcases hor with h | h <;> simp [sendMessageCatch, hc, hd, h]
  · intro hn
    by_cases hc : e.code = some (-32603)
    · cases hd : e.data with
      | none => simp [sendMessageCatch, hc, hd]
      | some df =>
        cases df with
        | notObj => simp [sendMessageCatch, hc, hd]
        | obj det =>
          cases det with
          | none => simp [sendMessageCatch, hc, hd]
          | some dv =>
            cases dv with
            | nonStr => simp [sendMessageCatch, hc, hd]
            | str d =>
              have h1 : strContains d "empty response text" = false := by
                cases h1 : strContains d "empty response text"
                · rfl
                · exact absurd ⟨hc, d, hd, Or.inl h1⟩ hn
              have h2 : strContains d "user aborted" = false := by
                cases h2 : strContains d "user aborted"
                · rfl
                · exact absurd ⟨hc, d, hd, Or.inr h2⟩ hn
              simp [sendMessageCatch, hc, hd, h1, h2]
    · simp [sendMessageCatch, hc]

/-- C7 witness: a benign "user aborted" error is swallowed and a plain
connection-closed error is surfaced and rethrown, at concrete inputs. -/
theorem C7_witness :
    sendMessageCatch
        { code := some (-32603),
          data := some (.obj (some (.str "Request failed: user aborted"))) } =
      { surfacedCategory := none, surfacedTitle := none,
        rethrown := false } ∧
    sendMessageCatch { code := some (-32000), data := none } =
      { surfacedCategory := some .communication,
        surfacedTitle := some "Message Send Failed", rethrown := true } :=
  ⟨(C7_benign_prompt_errors _).1
      ⟨rfl, "Request failed: user aborted", rfl, Or.inr (by decide)⟩,
   (C7_benign_prompt_errors _).2 (by
      rintro ⟨hc, -⟩
      exact absurd hc (by decide))⟩

/-- C8 counterexample: an OS-level spawn error with code ENOENT (the
"command not found" spawn failure) is surfaced by the process error
handler with the title "Command Not Found" but with category
`connection`, not `configuration` — contradicting the claim that such an
error is never surfaced as a raw connection-category error. -/
theorem C8_counterexample :
    (processErrorEvent (some "ENOENT") "/nonexistent/bin"
        "My Agent (a1)").category = AgentErrorCategory.connection ∧
    (processErrorEvent (some "ENOENT") "/nonexistent/bin"
        "My Agent (a1)").title = "Command Not Found" ∧
    AgentErrorCategory.connection ≠ AgentErrorCategory.configuration := by
  refine ⟨rfl, ?_, by decide⟩
  simp [processErrorEvent, getErrorInfo]

/-- C8 (amended): an exit with code 127 surfaces a configuration-category
error titled "Command Not Found" (and no other exit code surfaces an
error from the exit handler); an OS-level spawn error surfaces through
the error handler with category `connection` — titled "Command Not Found"
when the error code is ENOENT and "Agent Startup Error" otherwise. -/
theorem C8_exit_code_127 (code : Option Int) (errCode : Option String)
    (command agentLabel : String) :
    (∃ e, processExitEvent (some 127) command agentLabel = some e ∧
        e.category = AgentErrorCategory.configuration ∧
        e.title = "Command Not Found") ∧
    (processErrorEvent errCode command agentLabel).category =
      AgentErrorCategory.connection ∧
    (errCode = some "ENOENT" →
      (processErrorEvent errCode command agentLabel).title =
        "Command Not Found") ∧
    (errCode ≠ some "ENOENT" →
      (processErrorEvent errCode command agentLabel).title =
        "Agent Startup Error") ∧
    (code ≠ some 127 → processExitEvent code command agentLabel = none) := by
  refine ⟨⟨{ category := .configuration, title := "Command Not Found",
             message := "The command \"" ++ command ++
               "\" could not be found. " ++
               "Please check the path configuration for " ++
               agentLabel ++ "." }, ?_, rfl, rfl⟩, rfl, ?_, ?_, ?_⟩
  · simp [processExitEvent]
  · intro h
    simp [processErrorEvent, getErrorInfo, h]
  · intro h
    simp [processErrorEvent, getErrorInfo, h]
  · intro h
    simp [processExitEvent, h]

/-- C8 witness: the amended theorem at concrete inputs (exit code 0 and a
non-ENOENT spawn error code). -/
theorem C8_witness :
    (∃ e, processExitEvent (some 127) "/bin/agent" "A (a)" = some e ∧
        e.category = AgentErrorCategory.configuration ∧
        e.title = "Command Not Found") ∧
    (processErrorEvent (some "EACCES") "/bin/agent" "A (a)").category =
      AgentErrorCategory.connection ∧
    (some "EACCES" = some "ENOENT" →
      (processErrorEvent (some "EACCES") "/bin/agent" "A (a)").title =
        "Command Not Found") ∧
    (some "EACCES" ≠ some "ENOENT" →
      (processErrorEvent (some "EACCES") "/bin/agent" "A (a)").title =
        "Agent Startup Error") ∧
    (some (0 : Int) ≠ some 127 →
      processExitEvent (some 0) "/bin/agent" "A (a)" = none) :=
  C8_exit_code_127 (some 0) (some "EACCES") "/bin/agent" "A (a)"

/-- C9 counterexample: a state with zero pending permission requests and
zero *running* terminals, but whose registry still holds an exited
terminal. `cancelAllOperations` clears the registry, so the observable
state changes — the claim's precondition is too weak. -/
theorem C9_counterexample :
    c9ExState.pendingPermissionRequests = [] ∧
    c9ExState.pendingPermissionQueue = [] ∧
    (c9ExState.terminals.filter (fun e => e.2.exitStatus = none)).length
      = 0 ∧
    cancelAllOperationsStep c9ExState ≠ c9ExState := by
  refine ⟨rfl, rfl, rfl, ?_⟩
  intro h
  have := congrArg AdapterState.terminals h
  simp [cancelAllOperationsStep, cancelPendingPermissionRequests,
    killAllTerminals, c9ExState] at this

/-- C9 (amended): `cancelAllOperations` on a state with zero pending
permission requests and an *empty* terminal registry leaves the
observable state unchanged, and calling it twice always produces the
same state as calling it once (the registry clear also removes exited,
not-yet-released terminals, which is why an empty registry is needed for
the no-op half). -/
theorem C9_cancel_idempotent :
    (∀ s : AdapterState, s.pendingPermissionRequests = [] →
        s.pendingPermissionQueue = [] → s.terminals = [] →
        cancelAllOperationsStep s = s) ∧
    (∀ s : AdapterState,
        cancelAllOperationsStep (cancelAllOperationsStep s) =
          cancelAllOperationsStep s) := by
  have h1 : ∀ s : AdapterState, s.pendingPermissionRequests = [] →
      s.pendingPermissionQueue = [] → s.terminals = [] →
      cancelAllOperationsStep s = s := by
    intro s hp hq ht
    obtain ⟨msgs, pend, qu, terms⟩ := s
    simp only at hp hq ht
    subst hp
    subst hq
    subst ht
    rfl
  exact ⟨h1, fun s => h1 _ rfl rfl rfl⟩

/-- C9 witness: the amended theorem at a concrete state (the empty
state), plus the idempotence applied at the counterexample state. -/
theorem C9_witness :
    cancelAllOperationsStep
        { messages := [], pendingPermissionRequests := [],
          pendingPermissionQueue := [], terminals := [] } =
      { messages := [], pendingPermissionRequests := [],
        pendingPermissionQueue := [], terminals := [] } ∧
    cancelAllOperationsStep (cancelAllOperationsStep c9ExState) =
      cancelAllOperationsStep c9ExState :=
  ⟨C9_cancel_idempotent.1 _ rfl rfl rfl,
   C9_cancel_idempotent.2 c9ExState⟩

theorem registryGet_registrySet (r : TerminalRegistry) (tid : String)
    (t tnew : TerminalEntry) (h : registryGet r tid = some t) :
    registryGet (registrySet r tid tnew) tid = some tnew := by
  induction r with
  | nil => simp [registryGet] at h
  | cons e rest ih =>
    by_cases he : e.1 = tid
    · simp [registryGet, registrySet, List.find?, he]
    · simp only [registryGet, registrySet, List.map_cons, if_neg he,
        List.find?, show decide (e.1 = tid) = false from by simp [he]]
        at h ⊢
      exact ih h

/-- C10: when the terminal subprocess emits a spawn error, the manager
records exit status `exitCode 127, no signal` for that terminal, resolves
every promise already blocked in `waitForExit` with that status, and every
later `waitForExit` call for that terminal id resolves immediately with
the same status. -/
theorem C10_spawn_error (r : TerminalRegistry) (tid : String)
    (t : TerminalEntry) (h : registryGet r tid = some t) :
    (tmHandleProcessError r tid).2 =
      t.waitPromises.map
        (fun w => (w, { exitCode := some 127, signal := none })) ∧
    registryGet (tmHandleProcessError r tid).1 tid =
      some { t with
             exitStatus := some { exitCode := some 127, signal := none }
             waitPromises := [] } ∧
    (∀ w : Nat, tmWaitForExit (tmHandleProcessError r tid).1 tid w =
      some ((tmHandleProcessError r tid).1,
            some { exitCode := some 127, signal := none })) := by
  have h1 : tmHandleProcessError r tid =
      (registrySet r tid
        { t with
          exitStatus := some { exitCode := some 127, signal := none }
          waitPromises := [] },
       t.waitPromises.map
        (fun w => (w, { exitCode := some 127, signal := none }))) := by
    unfold tmHandleProcessError
    rw [h]
    rfl
  have h2 : registryGet (tmHandleProcessError r tid).1 tid =
      some { t with
             exitStatus := some { exitCode := some 127, signal := none }
             waitPromises := [] } := by
    rw [h1]
    exact registryGet_registrySet r tid t _ h
  refine ⟨by rw [h1], h2, ?_⟩
  intro w
  unfold tmWaitForExit
  rw [h2]

/-- C10 witness: a one-terminal registry with two blocked waiters. -/
theorem C10_witness :
    (tmHandleProcessError [("t1", { waitPromises := [5, 9] })] "t1").2 =
      ([5, 9] : List Nat).map
        (fun w => (w, { exitCode := some 127, signal := none })) ∧
    registryGet
        (tmHandleProcessError [("t1", { waitPromises := [5, 9] })] "t1").1
        "t1" =
      some { waitPromises := ([] : List Nat)
             exitStatus := some { exitCode := some 127, signal := none } } ∧
    (∀ w : Nat, tmWaitForExit
        (tmHandleProcessError [("t1", { waitPromises := [5, 9] })] "t1").1
        "t1" w =
      some ((tmHandleProcessError [("t1", { waitPromises := [5, 9] })]
               "t1").1,
            some { exitCode := some 127, signal := none })) :=
  C10_spawn_error [("t1", { waitPromises := [5, 9] })] "t1"
    { waitPromises := [5, 9] } (by decide)

/-- The message-wise rewrite of `updateMessage` (for a same-id `tool_call`
payload) does not change whether a message contains a tool call with any
given id. -/
theorem msgHas_updMsgFn (m : ChatMessage) (tid t : String)
    (n : ToolCallData) (hn : n.toolCallId = tid) :
    (updMsgFn tid (.toolCall n) m).content.any (isToolCallWith t) =
      m.content.any (isToolCallWith t) := by
  simp only [updMsgFn]
  induction m.content with
  | nil => rfl
  | cons x xs ih =>
    simp only [List.map_cons, List.any_cons, ih,
      isToolCallWith_updContentFn tid t n x hn]

/-- `updateMessage` with a same-id `tool_call` payload preserves the
number of messages containing a tool call with any given id. -/
theorem toolCallMsgCount_updateMessage (msgs : List ChatMessage)
    (tid t : String) (n : ToolCallData) (hn : n.toolCallId = tid) :
    toolCallMsgCount (updateMessage msgs tid (.toolCall n)).1 t =
      toolCallMsgCount msgs t := by
  rw [updateMessage_fst]
  unfold toolCallMsgCount
  induction msgs with
  | nil => rfl
  | cons m ms ih =>
    simp only [List.map_cons, List.countP_cons, ih,
      msgHas_updMsgFn m tid t n hn]

/-- `tool_call_update` routing preserves the number of messages containing
a tool call with any given id (in particular it never creates one). -/
theorem toolCallMsgCount_routeToolCallUpdate (msgs : List ChatMessage)
    (v : ToolCallUpdateNotif) (t : String) :
    toolCallMsgCount (routeToolCallUpdate msgs v) t =
      toolCallMsgCount msgs t := by
  unfold routeToolCallUpdate
  exact toolCallMsgCount_updateMessage msgs v.toolCallId t _ rfl

/-- The same for a whole sequence of `tool_call_update` notifications. -/
theorem toolCallMsgCount_foldl_updates (updates : List ToolCallUpdateNotif)
    (msgs : List ChatMessage) (t : String) :
    toolCallMsgCount (updates.foldl routeToolCallUpdate msgs) t =
      toolCallMsgCount msgs t := by
  induction updates generalizing msgs with
  | nil => rfl
  | cons v vs ih =>
    simp only [List.foldl_cons, ih, toolCallMsgCount_routeToolCallUpdate]

/-- How `tool_call` routing changes the number of messages holding the
notified tool call: upsert semantics (create only when absent). -/
theorem toolCallMsgCount_routeToolCall (msgs : List ChatMessage)
    (u : ToolCallNotif) (freshId : String) (now : Nat) :
    toolCallMsgCount (routeToolCall msgs u freshId now) u.toolCallId =
      if toolCallMsgCount msgs u.toolCallId = 0 then 1
      else toolCallMsgCount msgs u.toolCallId := by
  unfold routeToolCall
  dsimp only
  by_cases h : toolCallMsgCount msgs u.toolCallId = 0
  · have hany : msgs.any (fun m => m.content.any (isToolCallWith
        u.toolCallId)) = false := by
      rw [any_eq_false_iff_countP_zero]
      unfold toolCallMsgCount at h
      exact h
    rw [updateMessage_snd] at *
    simp only [hany, if_pos h, Bool.false_eq_true, if_false]
    unfold toolCallMsgCount addMessage
    rw [List.countP_append]
    have h1 : toolCallMsgCount (updateMessage msgs u.toolCallId
        (.toolCall { toolCallId := u.toolCallId,
                     title := some (some u.title),
                     status := some (u.status.getD .pending),
                     kind := u.kind,
                     content := toToolCallContent u.content,
                     locations := u.locations })).1 u.toolCallId = 0 := by
      rw [toolCallMsgCount_updateMessage msgs u.toolCallId u.toolCallId _
        rfl]
      exact h
    unfold toolCallMsgCount at h1
    rw [h1]
    simp [List.countP_cons, isToolCallWith]
  · have hany : msgs.any (fun m => m.content.any (isToolCallWith
        u.toolCallId)) = true := by
      cases hc : msgs.any (fun m => m.content.any (isToolCallWith
          u.toolCallId))
      · rw [any_eq_false_iff_countP_zero] at hc
        exact absurd hc h
      · rfl
    rw [updateMessage_snd]
    simp only [hany, if_neg h, if_true]
    exact toolCallMsgCount_updateMessage msgs u.toolCallId u.toolCallId _
      rfl

/-- C1 counterexample: a `tool_call_update` carrying a title, for a tool
call id that no message holds, is dropped: it creates zero messages, not
the one message the claim demands. -/
theorem C1_counterexample :
    c1UnknownUpdate.title = some (some "Read note") ∧
    routeToolCallUpdate [] c1UnknownUpdate = [] ∧
    toolCallMsgCount (routeToolCallUpdate [] c1UnknownUpdate)
      c1UnknownUpdate.toolCallId = 0 := by
  refine ⟨rfl, rfl, rfl⟩

/-- C1 (amended): starting from a message list with no tool call of the
notified id, a `tool_call` notification followed by any sequence of
`tool_call_update` notifications for the same id yields exactly one
message containing that tool call; re-applying the `tool_call` create
afterwards never duplicates it; and a `tool_call_update` whose id matches
no existing message is always dropped (the message list is returned
unchanged), whether or not it carries a title. -/
theorem C1_tool_call_upsert (msgs : List ChatMessage) (u : ToolCallNotif)
    (updates : List ToolCallUpdateNotif) (fid fid2 : String)
    (now now2 : Nat)
    (h0 : toolCallMsgCount msgs u.toolCallId = 0)
    (_hupd : ∀ v ∈ updates, v.toolCallId = u.toolCallId) :
    toolCallMsgCount (routeToolCall msgs u fid now) u.toolCallId = 1 ∧
    toolCallMsgCount
        (updates.foldl routeToolCallUpdate (routeToolCall msgs u fid now))
        u.toolCallId = 1 ∧
    toolCallMsgCount
        (routeToolCall
          (updates.foldl routeToolCallUpdate (routeToolCall msgs u fid now))
          u fid2 now2)
        u.toolCallId = 1 ∧
    (∀ (ms : List ChatMessage) (v : ToolCallUpdateNotif),
        toolCallMsgCount ms v.toolCallId = 0 →
        routeToolCallUpdate ms v = ms) := by
  have h1 : toolCallMsgCount (routeToolCall msgs u fid now) u.toolCallId
      = 1 := by
    rw [toolCallMsgCount_routeToolCall, if_pos h0]
  have h2 : toolCallMsgCount
      (updates.foldl routeToolCallUpdate (routeToolCall msgs u fid now))
      u.toolCallId = 1 := by
    rw [toolCallMsgCount_foldl_updates]
    exact h1
  refine ⟨h1, h2, ?_, ?_⟩
  · rw [toolCallMsgCount_routeToolCall, if_neg (by rw [h2]; omega), h2]
  · intro ms v hz
    unfold routeToolCallUpdate
    unfold updateMessage
    have hany : ms.any (fun m => m.content.any (isToolCallWith
        v.toolCallId)) = false := by
      rw [any_eq_false_iff_countP_zero]
      exact hz
    have hfound : (updateMessage ms v.toolCallId (.toolCall
        { toolCallId := v.toolCallId,
          title := v.title,
          status := some (v.status.getD .pending),
          kind := v.kind,
          content := toToolCallContent v.content,
          locations := v.locations })).2 = false := by
      rw [updateMessage_snd]
      exact hany
    unfold updateMessage at hfound
    dsimp only at hfound ⊢
    rw [hfound]
    simp

/-- C1 witness: the amended upsert theorem at a concrete scenario (one
`tool_call` then one `tool_call_update` for the same id, starting from an
empty message list). -/
theorem C1_witness :
    toolCallMsgCount
        (routeToolCall [] { toolCallId := "tc-1", title := "Read note" }
          "m1" 0)
        "tc-1" = 1 ∧
    toolCallMsgCount
        ([{ toolCallId := "tc-1",
            status := some ToolCallStatus.completed }].foldl
          routeToolCallUpdate
          (routeToolCall [] { toolCallId := "tc-1", title := "Read note" }
            "m1" 0))
        "tc-1" = 1 ∧
    toolCallMsgCount
        (routeToolCall
          ([{ toolCallId := "tc-1",
              status := some ToolCallStatus.completed }].foldl
            routeToolCallUpdate
            (routeToolCall []
              { toolCallId := "tc-1", title := "Read note" } "m1" 0))
          { toolCallId := "tc-1", title := "Read note" } "m2" 1)
        "tc-1" = 1 ∧
    (∀ (ms : List ChatMessage) (v : ToolCallUpdateNotif),
        toolCallMsgCount ms v.toolCallId = 0 →
        routeToolCallUpdate ms v = ms) :=
  C1_tool_call_upsert [] { toolCallId := "tc-1", title := "Read note" }
    [{ toolCallId := "tc-1", status := some ToolCallStatus.completed }]
    "m1" "m2" 0 1 (by decide)
    (by
      intro v hv
      rw [List.mem_singleton] at hv
      rw [hv])

/-- C2: for every existing tool-call entry (message `i`, entry `j`) with
the requested id, and every `updateMessage` call whose payload carries a
content list `nc`, the merged content is: all old non-diff entries in
order followed by exactly the new entries when `nc` contains a diff (so
zero old diff entries are retained), and all old entries followed by the
new entries when it does not. -/
theorem C2_diff_replacement (msgs : List ChatMessage) (tid : String)
    (n : ToolCallData) (nc : List ToolCallContent)
    (hn : n.content = some nc) (i j : Nat) (msg : ChatMessage)
    (tc : ToolCallData) (hi : msgs[i]? = some msg)
    (hj : msg.content[j]? = some (.toolCall tc))
    (htc : tc.toolCallId = tid) :
    ∃ msg' : ChatMessage,
      ((updateMessage msgs tid (.toolCall n)).1)[i]? = some msg' ∧
      ∃ tc' : ToolCallData,
        msg'.content[j]? = some (.toolCall tc') ∧
        tc'.content = some
          ((if nc.any (·.isDiff) then
              (tc.content.getD []).filter (fun e => !e.isDiff)
            else tc.content.getD []) ++ nc) := by
  rw [updateMessage_fst]
  refine ⟨updMsgFn tid (.toolCall n) msg, ?_, ?_⟩
  · rw [List.getElem?_map, hi]
    rfl
  · have hcj : (updMsgFn tid (.toolCall n) msg).content[j]? =
        some (updContentFn tid (.toolCall n) (.toolCall tc)) := by
      simp only [updMsgFn]
      rw [List.getElem?_map, hj]
      rfl
    refine ⟨{ tc with
        toolCallId := n.toolCallId
        title := match n.title with | some v => some v | none => tc.title
        kind := match n.kind with | some v => some v | none => tc.kind
        status := match n.status with
          | some v => some v
          | none => tc.status
        content := some (mergeToolCallContent tc.content n.content)
        permissionRequest := match n.permissionRequest with
          | some v => some v
          | none => tc.permissionRequest }, ?_, ?_⟩
    · rw [hcj]
      simp only [updContentFn, updateMsgContent, if_pos htc]
    · rw [hn]
      rfl

/-- C2 witness: the merge theorem at a concrete tool-call message whose
old content holds one diff and one terminal reference, updated with a
single new diff: the old diff disappears, the terminal entry stays. -/
theorem C2_witness :
    ∃ msg' : ChatMessage,
      ((updateMessage
          [{ id := "m1", role := .assistant,
             content := [.toolCall
               { toolCallId := "t1",
                 content := some [.diff "a.md" "v1" none,
                                  .terminal "term-1"] }],
             timestamp := 0 }]
          "t1"
          (.toolCall { toolCallId := "t1",
                       content := some [.diff "a.md" "v2" none] })).1)[0]? =
        some msg' ∧
      ∃ tc' : ToolCallData,
        msg'.content[0]? = some (.toolCall tc') ∧
        tc'.content = some
          ((if ([ToolCallContent.diff "a.md" "v2" none].any (·.isDiff))
              then
              ((some [ToolCallContent.diff "a.md" "v1" none,
                      ToolCallContent.terminal "term-1"]).getD []).filter
                (fun e => !e.isDiff)
            else (some [ToolCallContent.diff "a.md" "v1" none,
                        ToolCallContent.terminal "term-1"]).getD []) ++
            [ToolCallContent.diff "a.md" "v2" none]) :=
  C2_diff_replacement
    [{ id := "m1", role := .assistant,
       content := [.toolCall
         { toolCallId := "t1",
           content := some [.diff "a.md" "v1" none,
                            .terminal "term-1"] }],
       timestamp := 0 }]
    "t1"
    { toolCallId := "t1", content := some [.diff "a.md" "v2" none] }
    [.diff "a.md" "v2" none] rfl 0 0
    { id := "m1", role := .assistant,
      content := [.toolCall
        { toolCallId := "t1",
          content := some [.diff "a.md" "v1" none,
                           .terminal "term-1"] }],
      timestamp := 0 }
    { toolCallId := "t1",
      content := some [.diff "a.md" "v1" none, .terminal "term-1"] }
    rfl rfl rfl

/-! ## Lemmas for the permission-arbitration invariant (C4) -/

theorem filterMap_eq_nil_of {α β : Type} (l : List α) (f : α → Option β)
    (h : ∀ x ∈ l, f x = none) : l.filterMap f = [] := by
  induction l with
  | nil => rfl
  | cons a t ih =>
    rw [List.filterMap_cons, h a (List.mem_cons_self a t)]
    exact ih (fun x hx => h x (List.mem_cons_of_mem a hx))

theorem filterMap_eq_single {α β : Type} (l : List α) (q : α → Bool)
    (f : α → Option β) (v : β) (h1 : l.countP q = 1)
    (h2 : ∀ x ∈ l, f x = if q x then some v else none) :
    l.filterMap f = [v] := by
  induction l with
  | nil => simp [List.countP_nil] at h1
  | cons a t ih =>
    rw [List.countP_cons] at h1
    rw [List.filterMap_cons]
    by_cases hq : q a
    · have ht : t.countP q = 0 := by
        simp only [hq, if_pos] at h1
        omega
      have hfa : f a = some v := by
        rw [h2 a (List.mem_cons_self a t), if_pos hq]
      rw [hfa]
      have hnil : t.filterMap f = [] := by
        apply filterMap_eq_nil_of
        intro x hx
        have hqx : q x = false := by
          rw [List.countP_eq_zero] at ht
          exact Bool.eq_false_iff.mpr (ht x hx)
        rw [h2 x (List.mem_cons_of_mem a hx), hqx]
        simp
      rw [hnil]
    · have hfa : f a = none := by
        rw [h2 a (List.mem_cons_self a t), if_neg hq]
      rw [hfa]
      refine ih ?_ (fun x hx => h2 x (List.mem_cons_of_mem a hx))
      simp only [hq, if_neg] at h1
      simpa using h1

theorem mapSet_fresh (m : List (String × PendingEntry)) (k : String)
    (v : PendingEntry) (h : ∀ e ∈ m, e.1 ≠ k) :
    mapSet m k v = m ++ [(k, v)] := by
  unfold mapSet
  rw [if_neg]
  simp only [List.any_eq_true, not_exists, not_and]
  intro e he
  simp [h e he]

/-- Counts of tool-call entries over `allContents` are preserved by any
same-id `updateMessage`. -/
theorem countP_allContents_updateMessage (msgs : List ChatMessage)
    (tid t : String) (n : ToolCallData) (hn : n.toolCallId = tid) :
    (allContents (updateMessage msgs tid (.toolCall n)).1).countP
        (isToolCallWith t) =
      (allContents msgs).countP (isToolCallWith t) := by
  rw [updateMessage_fst, allContents_map_updMsgFn]
  exact countP_updContentFn (allContents msgs) tid t n hn

/-- Two tool-call-id tests cannot both succeed on one entry unless the
ids agree. -/
theorem isToolCallWith_unique (t1 t2 : String) (c : MessageContent)
    (h1 : isToolCallWith t1 c = true) (h2 : isToolCallWith t2 c = true) :
    t1 = t2 := by
  cases c <;> simp [isToolCallWith] at h1 h2
  rw [← h1, ← h2]

/-- A state with empty queue and pending table and no visible active
permission request satisfies the invariant for the empty request list. -/
theorem ArbInv_nil (msgs : List ChatMessage) (terms : TerminalRegistry)
    (h : ∀ c ∈ allContents msgs, activeRid c = none) :
    ArbInv { messages := msgs, pendingPermissionRequests := [],
             pendingPermissionQueue := [], terminals := terms } [] := by
  refine ⟨rfl, rfl, List.nodup_nil, List.nodup_nil, ?_, ?_⟩
  · intro e he
    simp at he
  · intro c hc
    simpa using h c hc

/-- Under the invariant, the visible active request ids are exactly the
queue head (and nothing is active on an empty queue). -/
theorem ArbInv_active (s : AdapterState) (reqs : List QueueEntry)
    (hinv : ArbInv s reqs) :
    activeRequestIds s =
      match reqs.head? with
      | some h => [h.requestId]
      | none => [] := by
  obtain ⟨-, -, -, -, h5, h6⟩ := hinv
  cases reqs with
  | nil =>
    simp only [List.head?_nil]
    apply filterMap_eq_nil_of
    intro c hc
    simpa using h6 c hc
  | cons hq tailq =>
    simp only [List.head?_cons]
    apply filterMap_eq_single (allContents s.messages)
      (isToolCallWith hq.toolCallId) activeRid hq.requestId
    · exact h5 hq (List.mem_cons_self hq tailq)
    · intro c hc
      simpa using h6 c hc

/-- Every entry of `allContents` after an `updateMessage` comes from an
entry of the original `allContents` through the entry-wise rewrite. -/
theorem allContents_updateMessage_mem (msgs : List ChatMessage)
    (tid : String) (n : ToolCallData) (c : MessageContent)
    (hc : c ∈ allContents (updateMessage msgs tid (.toolCall n)).1) :
    ∃ c0 ∈ allContents msgs, c = updContentFn tid (.toolCall n) c0 := by
  rw [updateMessage_fst, allContents_map_updMsgFn, List.mem_map] at hc
  obtain ⟨c0, hc0, rfl⟩ := hc
  exact ⟨c0, hc0, rfl⟩

/-- Resolving the queue head under the invariant: the promise is resolved
with the selected option, the head leaves the queue and the pending
table, and the invariant is re-established for the tail (whose new head,
if any, has been promoted to active). -/
theorem ArbInv_resolve (s : AdapterState) (hq : QueueEntry)
    (tailq : List QueueEntry) (opt : String)
    (hinv : ArbInv s (hq :: tailq)) :
    ∃ s' : AdapterState,
      handlePermissionResponseStep s hq.requestId opt =
        (s', some (.selected opt)) ∧
      ArbInv s' tailq := by
  obtain ⟨h1, h2, h3, h4, h5, h6⟩ := hinv
  have hget : mapGet s.pendingPermissionRequests hq.requestId =
      some { toolCallId := hq.toolCallId, options := hq.options } := by
    rw [h2]
    simp [mapGet, List.find?]
  have hq_rid_notin : hq.requestId ∉
      tailq.map (fun e => e.requestId) := by
    simp only [List.map_cons, List.nodup_cons] at h3
    exact h3.1
  have hq_tc_notin : hq.toolCallId ∉
      tailq.map (fun e => e.toolCallId) := by
    simp only [List.map_cons, List.nodup_cons] at h4
    exact h4.1
  have hdel : mapDelete s.pendingPermissionRequests hq.requestId =
      tailq.map (fun e => (e.requestId,
        ({ toolCallId := e.toolCallId, options := e.options } :
          PendingEntry))) := by
    rw [h2]
    unfold mapDelete
    rw [List.map_cons, List.filter_cons, if_neg (by simp)]
    apply List.filter_eq_self.mpr
    intro e he
    rw [List.mem_map] at he
    obtain ⟨e0, he0, rfl⟩ := he
    have hne : e0.requestId ≠ hq.requestId := by
      intro hcontra
      exact hq_rid_notin (hcontra ▸ List.mem_map_of_mem _ he0)
    simpa using hne
  have hqfil : (hq :: tailq).filter
      (fun entry => entry.requestId ≠ hq.requestId) = tailq := by
    rw [List.filter_cons, if_neg (by simp)]
    apply List.filter_eq_self.mpr
    intro e he
    have hne : e.requestId ≠ hq.requestId := by
      intro hcontra
      exact hq_rid_notin (hcontra ▸ List.mem_map_of_mem _ he)
    simpa using hne
  -- the state after the resolve proper, before promotion
  unfold handlePermissionResponseStep
  rw [hget]
  dsimp only
  rw [h1, hqfil, hdel]
  set prRes : PermissionRequestData :=
    { requestId := hq.requestId, options := hq.options,
      selectedOptionId := some opt, isActive := some false } with hprRes
  set n1 : ToolCallData :=
    { toolCallId := hq.toolCallId, permissionRequest := some prRes }
    with hn1
  set msgs1 := (updateMessage s.messages hq.toolCallId
    (.toolCall n1)).1 with hmsgs1
  -- facts about msgs1
  have hmem1 : ∀ c ∈ allContents msgs1,
      ∃ c0 ∈ allContents s.messages,
        c = updContentFn hq.toolCallId (.toolCall n1) c0 :=
    fun c hc => allContents_updateMessage_mem _ _ _ c hc
  have hcount1 : ∀ t : String,
      (allContents msgs1).countP (isToolCallWith t) =
        (allContents s.messages).countP (isToolCallWith t) :=
    fun t => countP_allContents_updateMessage s.messages hq.toolCallId t
      n1 rfl
  have hactive1 : ∀ c0 ∈ allContents s.messages,
      activeRid (updContentFn hq.toolCallId (.toolCall n1) c0) = none := by
    intro c0 hc0
    rw [activeRid_updContentFn hq.toolCallId n1 prRes c0 rfl]
    by_cases hcase : isToolCallWith hq.toolCallId c0
    · rw [if_pos hcase]
      simp [hprRes]
    · rw [if_neg hcase]
      have := h6 c0 hc0
      simp only [List.head?_cons] at this
      rw [this, if_neg hcase]
  have hactive1' : ∀ c ∈ allContents msgs1, activeRid c = none := by
    intro c hc
    obtain ⟨c0, hc0, rfl⟩ := hmem1 c hc
    exact hactive1 c0 hc0
  cases tailq with
  | nil =>
    refine ⟨_, rfl, ?_⟩
    -- activateNextPermission on an empty queue is the identity
    unfold activateNextPermission
    dsimp only
    refine ⟨rfl, rfl, List.nodup_nil, List.nodup_nil, ?_, ?_⟩
    · intro e he
      simp at he
    · intro c hc
      simpa using hactive1' c hc
  | cons h2q t2 =>
    -- promotion of the new head
    have hget2 : mapGet ((h2q :: t2).map (fun e => (e.requestId,
        ({ toolCallId := e.toolCallId, options := e.options } :
          PendingEntry)))) h2q.requestId =
        some { toolCallId := h2q.toolCallId, options := h2q.options } := by
      simp [mapGet, List.find?]
    unfold activateNextPermission
    dsimp only
    rw [List.head?_cons]
    dsimp only
    rw [hget2]
    dsimp only
    set prAct : PermissionRequestData :=
      { requestId := h2q.requestId, options := h2q.options,
        isActive := some true } with hprAct
    set n2 : ToolCallData :=
      { toolCallId := h2q.toolCallId, permissionRequest := some prAct }
      with hn2
    refine ⟨_, rfl, ?_⟩
    have htc_ne : h2q.toolCallId ≠ hq.toolCallId := by
      intro hcontra
      exact hq_tc_notin (by
        rw [← hcontra]
        exact List.mem_map_of_mem _ (List.mem_cons_self h2q t2))
    refine ⟨rfl, rfl, ?_, ?_, ?_, ?_⟩
    · have hh : (hq.requestId ::
          (h2q :: t2).map (fun e => e.requestId)).Nodup := by
        simpa using h3
      exact hh.of_cons
    · have hh : (hq.toolCallId ::
          (h2q :: t2).map (fun e => e.toolCallId)).Nodup := by
        simpa using h4
      exact hh.of_cons
    · intro e he
      rw [countP_allContents_updateMessage msgs1 h2q.toolCallId
        e.toolCallId n2 rfl, hcount1]
      exact h5 e (List.mem_cons_of_mem hq he)
    · intro c hc
      simp only [List.head?_cons]
      obtain ⟨c1, hc1, rfl⟩ := allContents_updateMessage_mem msgs1
        h2q.toolCallId n2 c hc
      rw [activeRid_updContentFn h2q.toolCallId n2 prAct c1 rfl]
      rw [isToolCallWith_updContentFn h2q.toolCallId h2q.toolCallId n2 c1
        rfl]
      by_cases hcase : isToolCallWith h2q.toolCallId c1
      · rw [if_pos hcase, if_pos hcase]
        simp [hprAct]
      · rw [if_neg hcase, if_neg hcase]
        exact hactive1' c1 hc1

/-- A new permission request arriving under the invariant (with fresh
request id, a tool-call id that is new to the queue but present in
exactly one message entry, and a non-empty protocol tool-call id):
the invariant extends to the queue with the new entry appended. -/
theorem ArbInv_request (s : AdapterState) (reqs : List QueueEntry)
    (params : PermParams) (info : PermToolCallInfo)
    (rid tcid mid : String) (now : Nat)
    (hinv : ArbInv s reqs)
    (hinfo : params.toolCall = some info)
    (hne : info.toolCallId ≠ "")
    (hridf : rid ∉ reqs.map (fun e => e.requestId))
    (htcf : info.toolCallId ∉ reqs.map (fun e => e.toolCallId))
    (hcount : (allContents s.messages).countP
      (isToolCallWith info.toolCallId) = 1) :
    ArbInv (requestPermissionStep s params rid tcid mid now)
      (reqs ++ [{ requestId := rid, toolCallId := info.toolCallId,
                  options := params.options.map normalizeOption }]) := by
  obtain ⟨h1, h2, h3, h4, h5, h6⟩ := hinv
  have hex : ∃ c ∈ allContents s.messages,
      isToolCallWith info.toolCallId c = true := by
    by_contra hno
    push_neg at hno
    have hzero : (allContents s.messages).countP
        (isToolCallWith info.toolCallId) = 0 :=
      List.countP_eq_zero.mpr (fun a ha => by simp [hno a ha])
    omega
  have hfound : (updateMessage s.messages info.toolCallId
      (.toolCall { toolCallId := info.toolCallId,
                   permissionRequest := some
                     { requestId := rid
                       options := params.options.map normalizeOption
                       isActive := some
                         (decide (reqs.length = 0)) } })).2 = true :=
    (updateMessage_snd _ _ _).symm ▸ (any_toolCall_eq _ _).mpr hex
  have hpendfresh : ∀ e ∈ s.pendingPermissionRequests, e.1 ≠ rid := by
    intro e he
    rw [h2, List.mem_map] at he
    obtain ⟨e0, he0, rfl⟩ := he
    intro hcontra
    exact hridf (hcontra ▸ List.mem_map_of_mem _ he0)
  have hstep : requestPermissionStep s params rid tcid mid now =
      { messages := (updateMessage s.messages info.toolCallId
          (.toolCall { toolCallId := info.toolCallId,
                       permissionRequest := some
                         { requestId := rid
                           options := params.options.map normalizeOption
                           isActive := some
                             (decide (reqs.length = 0)) } })).1
        pendingPermissionRequests := s.pendingPermissionRequests ++
          [(rid, { toolCallId := info.toolCallId,
                   options := params.options.map normalizeOption })]
        pendingPermissionQueue := reqs ++
          [{ requestId := rid, toolCallId := info.toolCallId,
             options := params.options.map normalizeOption }]
        terminals := s.terminals } := by
    unfold requestPermissionStep
    simp only [hinfo, if_neg hne, h1, hfound, Bool.not_true,
      Bool.false_eq_true, if_false,
      mapSet_fresh s.pendingPermissionRequests rid _ hpendfresh]
  rw [hstep]
  refine ⟨rfl, ?_, ?_, ?_, ?_, ?_⟩
  · rw [h2, List.map_append]
    rfl
  · rw [List.map_append]
    refine List.Nodup.append h3 (List.nodup_singleton _) ?_
    intro a ha hb
    rw [List.map_singleton, List.mem_singleton] at hb
    subst hb
    exact hridf ha
  · rw [List.map_append]
    refine List.Nodup.append h4 (List.nodup_singleton _) ?_
    intro a ha hb
    rw [List.map_singleton, List.mem_singleton] at hb
    subst hb
    exact htcf ha
  · intro e he
    rw [countP_allContents_updateMessage s.messages info.toolCallId
      e.toolCallId _ rfl]
    rw [List.mem_append, List.mem_singleton] at he
    rcases he with he | rfl
    · exact h5 e he
    · exact hcount
  · intro c hc
    obtain ⟨c0, hc0, rfl⟩ := allContents_updateMessage_mem _ _ _ c hc
    cases reqs with
    | nil =>
      simp only [List.nil_append, List.head?_cons]
      rw [activeRid_updContentFn info.toolCallId _ _ c0 rfl]
      rw [isToolCallWith_updContentFn info.toolCallId _ _ c0 rfl]
      by_cases hcase : isToolCallWith info.toolCallId c0
      · rw [if_pos hcase, if_pos hcase]
        simp
      · rw [if_neg hcase, if_neg hcase]
        have := h6 c0 hc0
        simpa using this
    | cons h0 rest =>
      simp only [List.cons_append, List.head?_cons]
      rw [activeRid_updContentFn info.toolCallId _ _ c0 rfl]
      rw [isToolCallWith_updContentFn info.toolCallId h0.toolCallId _ c0
        rfl]
      by_cases hcase : isToolCallWith info.toolCallId c0
      · rw [if_pos hcase]
        have hh0 : isToolCallWith h0.toolCallId c0 = false := by
          cases hcc : isToolCallWith h0.toolCallId c0
          · rfl
          · exfalso
            apply htcf
            rw [isToolCallWith_unique info.toolCallId h0.toolCallId c0
              hcase hcc]
            exact List.mem_map_of_mem _ (List.mem_cons_self h0 rest)
        rw [hh0]
        simp
      · rw [if_neg hcase]
        have := h6 c0 hc0
        simp only [List.head?_cons] at this
        exact this

/-- C4: permission arbitration is FIFO with exactly one active request.
(1) A state with empty queue/pending table and no visible active flag
satisfies the invariant for the empty request list; (2) each arriving
request (auto-allow disabled; fresh ids; its tool call present in exactly
one message entry) appends to the queue, preserving the invariant;
(3) resolving the active (head) request resolves its promise with the
selected option, removes it from the queue and the pending table, and
re-establishes the invariant for the remaining requests with the
next-oldest promoted; (4) under the invariant the queue lists the
outstanding requests in arrival order and exactly the head is active. -/
theorem C4_permission_fifo :
    (∀ (msgs : List ChatMessage) (terms : TerminalRegistry),
        (∀ c ∈ allContents msgs, activeRid c = none) →
        ArbInv { messages := msgs, pendingPermissionRequests := [],
                 pendingPermissionQueue := [], terminals := terms } []) ∧
    (∀ (s : AdapterState) (reqs : List QueueEntry) (params : PermParams)
        (info : PermToolCallInfo) (rid tcid mid : String) (now : Nat),
        ArbInv s reqs → params.toolCall = some info →
        info.toolCallId ≠ "" →
        rid ∉ reqs.map (fun e => e.requestId) →
        info.toolCallId ∉ reqs.map (fun e => e.toolCallId) →
        (allContents s.messages).countP (isToolCallWith info.toolCallId)
          = 1 →
        ArbInv (requestPermissionStep s params rid tcid mid now)
          (reqs ++ [{ requestId := rid, toolCallId := info.toolCallId,
                      options := params.options.map normalizeOption }])) ∧
    (∀ (s : AdapterState) (hq : QueueEntry) (tailq : List QueueEntry)
        (opt : String),
        ArbInv s (hq :: tailq) →
        ∃ s', handlePermissionResponseStep s hq.requestId opt =
            (s', some (.selected opt)) ∧ ArbInv s' tailq) ∧
    (∀ (s : AdapterState) (reqs : List QueueEntry), ArbInv s reqs →
        s.pendingPermissionQueue = reqs ∧
        activeRequestIds s = (match reqs.head? with
          | some h => [h.requestId]
          | none => [])) := by
  refine ⟨ArbInv_nil, ?_, ?_, ?_⟩
  · intro s reqs params info rid tcid mid now hinv hinfo hne hridf htcf
      hcount
    exact ArbInv_request s reqs params info rid tcid mid now hinv hinfo
      hne hridf htcf hcount
  · intro s hq tailq opt hinv
    exact ArbInv_resolve s hq tailq opt hinv
  · intro s reqs hinv
    exact ⟨hinv.1, ArbInv_active s reqs hinv⟩

/-- C4 witness: the FIFO theorem run through a concrete scenario — the
clean one-tool-call state, one arrival, its activation, and its
resolution. -/
theorem C4_witness :
    ArbInv c4State0 [] ∧
    ArbInv (requestPermissionStep c4State0 c4Params1 "r1" "u1" "pm1" 0)
      [c4Entry1] ∧
    activeRequestIds
        (requestPermissionStep c4State0 c4Params1 "r1" "u1" "pm1" 0) =
      ["r1"] ∧
    (∃ s', handlePermissionResponseStep
        (requestPermissionStep c4State0 c4Params1 "r1" "u1" "pm1" 0)
        "r1" "o-yes" = (s', some (.selected "o-yes")) ∧ ArbInv s' []) := by
  have hbase : ArbInv c4State0 [] :=
    C4_permission_fifo.1 c4State0.messages c4State0.terminals (by decide)
  have harr : ArbInv
      (requestPermissionStep c4State0 c4Params1 "r1" "u1" "pm1" 0)
      [c4Entry1] :=
    C4_permission_fifo.2.1 c4State0 [] c4Params1
      { toolCallId := "t1", title := some (some "Edit") }
      "r1" "u1" "pm1" 0 hbase rfl (by decide) (by decide) (by decide)
      (by decide)
  have hact := C4_permission_fifo.2.2.2 _ [c4Entry1] harr
  have hres := C4_permission_fifo.2.2.1 _ c4Entry1 [] "o-yes" harr
  exact ⟨hbase, harr, hact.2, hres⟩
